import Mathlib

/-!
Verification of the deployment orchestrator of jmcarp/deploy-to-cf.

The development shallowly embeds the orchestration core: the deployment
descriptor data model (`helpers/load_manifest.go`), the deploy request
handler's validation and mutation loops (`main.go` `Deploy`, and the
refactored `actions` deploy handler), the Cloud Foundry CLI driver
(`helpers/cloud_foundry.go`: `Create`, `createServices`, `createService`,
`checkService`, `createApp`, `cf`, `getRoute`, `WriteConfig`), and the
archive extractor (`archive.go` `Untar`).

External effects are embedded explicitly:
 * every `cf` subprocess invocation is an event carrying its argument list;
   a deterministic environment (`CFEnv`) maps the history of previously
   issued commands plus the next command to that command's outcome
   (captured stdout, or a failure as returned by `Cmd.Run`), and each
   driver function threads the growing command history;
 * the process-global environment variable table and the file system are
   embedded as explicit maps;
 * Go strings are embedded as Lean `String`, with the byte-level
   `strings.Split` / prefix test / `strings.Replace` operations defined
   over the underlying character list (all contract-relevant markers are
   ASCII, so characters coincide with bytes).

The manifest mutator (`NewManifest` / `AddEnvironmentVariable` / `Save`)
is called by the deploy handlers but its definition is not among the
sources under verification; it is modelled from the spec where marked.
-/

namespace DeployToCF

/-- Characters-level embedding of Go `strings.Split(s, sep)` for a
one-character separator: splitting the empty string yields `[""]`, and a
trailing separator yields a trailing empty field, as in Go. -/
def splitChar (c : Char) : List Char → List (List Char)
  | [] => [[]]
  | ch :: rest =>
      match splitChar c rest with
      | [] => [[]]
      | l :: ls => if ch = c then [] :: l :: ls else (ch :: l) :: ls

/-- Go `strings.Split(s, string(c))` for a one-character separator. -/
def goSplit (s : String) (c : Char) : List String :=
  (splitChar c s.data).map (fun l => ⟨l⟩)

/-- Go `strings.Split(output, "\n")` as used by `checkService` and `getRoute`. -/
def goSplitLines (s : String) : List String := goSplit s '\n'

/-- `EnvVar` from `helpers/load_manifest.go`: one declared environment
variable of the deployment descriptor. -/
structure EnvVar where
  description : String
  required : Bool
  value : String
deriving DecidableEq

/-- `Service` from `helpers/load_manifest.go`: one declared backing
service. `config` holds the `map[string]interface{}` entries as
key/encoded-value pairs (the JSON encoding of the values is opaque to
every claim). -/
structure Service where
  service : String
  plan : String
  label : String
  tags : List String
  config : List (String × String)
deriving DecidableEq

/-- `App` from `helpers/load_manifest.go`: the parsed deployment
descriptor. The Go `map[string]*EnvVar` is embedded as an association
list; Go map iteration order is unspecified, the list fixes one order. -/
structure App where
  envVars : List (String × EnvVar)
  services : List Service
deriving DecidableEq

/-- Argument vector of one `cf` CLI invocation. -/
abbrev CmdArgs := List String

/-- Outcome of one `cf` CLI invocation: `ok` carries the captured stdout
(`cmd.Run()` returned nil), `err` carries the failure message
(`cmd.Run()` returned an error). -/
inductive CmdResult where
  | ok (stdout : String)
  | err (msg : String)
deriving DecidableEq

/-- Deterministic environment of the external `cf` CLI: given the history
of commands already issued in this run and the next command, it yields
that command's outcome. Per-invocation variation (e.g. a service becoming
ready after a few polls) is expressed through the growing history. -/
abbrev CFEnv := List CmdArgs → CmdArgs → CmdResult

/-- `CloudFoundry` from `helpers/cloud_foundry.go`: `path` is the isolated
session directory, `data` stands for the marshalled `coreconfig.Data`
session document (its JSON rendering is opaque to every claim). -/
structure CloudFoundry where
  path : String
  data : String
deriving DecidableEq

/-- Process-global environment variable table (`os.Setenv` / `os.Getenv`). -/
abbrev ProcEnv := String → Option String

/-- Go `os.Setenv`. -/
def goSetenv (g : ProcEnv) (k v : String) : ProcEnv := Function.update g k (some v)

/-- Go `os.Unsetenv`. -/
def goUnsetenv (g : ProcEnv) (k : String) : ProcEnv := Function.update g k none

/-- Global effect executed on entry of `createApp`
(`helpers/cloud_foundry.go:143`): `os.Setenv("CF_HOME", cf.path)`. -/
def createAppSetsHome (cf : CloudFoundry) (g : ProcEnv) : ProcEnv :=
  goSetenv g "CF_HOME" cf.path

/-- Global effect deferred by `createApp`
(`helpers/cloud_foundry.go:144`): `os.Unsetenv("CF_HOME")`. -/
def createAppUnsetsHome (g : ProcEnv) : ProcEnv := goUnsetenv g "CF_HOME"

/-- The CLI home directory an in-process push started now would be scoped
by: `createApp` runs the push inside the server process and scopes it via
the process-global `CF_HOME` it has just set
(`helpers/cloud_foundry.go:143-148`). -/
def inProcessPushHome (g : ProcEnv) : Option String := g "CF_HOME"

/-- File system as a map from path to file content. -/
abbrev FileSys := String → Option String

/-- Session document path `filepath.Join(cf.path, ".cf", "config.json")`
from `WriteConfig` (`helpers/cloud_foundry.go:54`); the joined components
are fixed relative names, so the join is plain concatenation. -/
def configPath (cf : CloudFoundry) : String := cf.path ++ "/.cf/config.json"

/-- `WriteConfig` (`helpers/cloud_foundry.go:53-67`): marshal the session
document and write it at `configPath` (directory creation is idempotent
and does not touch other files). -/
def writeConfig (cf : CloudFoundry) (fs : FileSys) : FileSys :=
  Function.update fs (configPath cf) (some cf.data)

/-- Environment list handed to a `cf` subprocess by `cf(args...)`
(`helpers/cloud_foundry.go:176-184`): the inherited process environment
followed by `CF_COLOR=true` and this run's own `CF_HOME`. -/
def cfCmdEnv (cf : CloudFoundry) (environ : List String) : List String :=
  environ ++ ["CF_COLOR=true", "CF_HOME=" ++ cf.path]

/-- JSON rendering of a service's `config` map as produced by
`json.Marshal` in `createService`; the encoding of the values is opaque,
only non-emptiness of the map is contract relevant. -/
def jsonMarshal (config : List (String × String)) : String :=
  "\x7b" ++ String.intercalate "," (config.map (fun p => "\x22" ++ p.1 ++ "\x22:" ++ p.2)) ++ "\x7d"

/-- Argument vector built by `createService`
(`helpers/cloud_foundry.go:93-104`). -/
def createArgs (svc : Service) : CmdArgs :=
  ["create-service", svc.service, svc.plan, svc.label]
    ++ (if svc.tags.length > 0 then ["-t", String.intercalate "," svc.tags] else [])
    ++ (if svc.config.length > 0 then ["-c", jsonMarshal svc.config] else [])

/-- Argument vector of one status poll issued by `checkService`
(`helpers/cloud_foundry.go:115`). -/
def serviceArgs (label : String) : CmdArgs := ["service", label]

/-- Argument vector of the push issued for the application
(`push app -f manifest -p path`). -/
def pushArgs (app manifest path : String) : CmdArgs :=
  ["push", app, "-f", manifest, "-p", path]

/-- Argument vector of the app status query issued by `getRoute`
(`helpers/cloud_foundry.go:188`). -/
def appArgs (name : String) : CmdArgs := ["app", name]

/-- Status-line scan of one poll (`helpers/cloud_foundry.go:124-131`): a
query that returned an error never matches; a successful query matches
when some line of its output equals `"Status: create succeeded"`. -/
def matchesSuccess : CmdResult → Bool
  | CmdResult.ok out => (goSplitLines out).any (fun l => l == "Status: create succeeded")
  | CmdResult.err _ => false

/-- Poll loop body of `checkService` (`helpers/cloud_foundry.go:114-140`):
issue `cf service <label>`; on a matching status line return nil; else add
5 to `elapsed`, fail with `"Service <label> incomplete"` once `elapsed`
exceeds `timeout`, otherwise sleep and iterate. -/
def checkServiceLoop (cf : CloudFoundry) (svc : Service) (timeout : Int) (env : CFEnv)
    (hist : List CmdArgs) (elapsed : Int) : Except String Unit × List CmdArgs :=
  if matchesSuccess (env hist (serviceArgs svc.label)) then
    (Except.ok (), hist ++ [serviceArgs svc.label])
  else if h : elapsed + 5 > timeout then
    (Except.error ("Service " ++ svc.label ++ " incomplete"), hist ++ [serviceArgs svc.label])
  else
    checkServiceLoop cf svc timeout env (hist ++ [serviceArgs svc.label]) (elapsed + 5)
termination_by (timeout - elapsed).toNat
decreasing_by omega

/-- `checkService` (`helpers/cloud_foundry.go:114-140`): the poll loop
entered with `elapsed = 0`. -/
def checkService (cf : CloudFoundry) (svc : Service) (timeout : Int) (env : CFEnv)
    (hist : List CmdArgs) : Except String Unit × List CmdArgs :=
  checkServiceLoop cf svc timeout env hist 0

/-- `createService` (`helpers/cloud_foundry.go:93-112`): issue the
creation command; on issuance failure return that error at once,
otherwise poll readiness with the caller-supplied timeout. -/
def createService (cf : CloudFoundry) (svc : Service) (timeout : Int) (env : CFEnv)
    (hist : List CmdArgs) : Except String Unit × List CmdArgs :=
  match env hist (createArgs svc) with
  | CmdResult.err m => (Except.error m, hist ++ [createArgs svc])
  | CmdResult.ok _ => checkService cf svc timeout env (hist ++ [createArgs svc])

/-- `createServices` (`helpers/cloud_foundry.go:83-91`): the `range` loop
over `app.Services`, stopping at the first failing service. -/
def createServices (cf : CloudFoundry) (svcs : List Service) (timeout : Int) (env : CFEnv)
    (hist : List CmdArgs) : Except String Unit × List CmdArgs :=
  match svcs with
  | [] => (Except.ok (), hist)
  | svc :: rest =>
    match createService cf svc timeout env hist with
    | (Except.ok _, h) => createServices cf rest timeout env h
    | (Except.error e, h) => (Except.error e, h)

/-- `createApp`: issue the push command for the mutated bundle and
propagate its outcome (the subprocess-push variant of the source; the
in-process variant's global-environment effect is modelled separately by
`createAppSetsHome` / `createAppUnsetsHome`). -/
def createApp (cf : CloudFoundry) (app manifest path : String) (env : CFEnv)
    (hist : List CmdArgs) : Except String Unit × List CmdArgs :=
  match env hist (pushArgs app manifest path) with
  | CmdResult.err m => (Except.error m, hist ++ [pushArgs app manifest path])
  | CmdResult.ok _ => (Except.ok (), hist ++ [pushArgs app manifest path])

/-- Line scan of `getRoute` (`helpers/cloud_foundry.go:195-200`): return
the first line at which `strings.Index(line, "urls: ") == 0`, with the
marker removed; under that index condition
`strings.Replace(line, "urls: ", "", 1)` removes exactly the leading
marker, i.e. drops the first `len("urls: ")` characters. -/
def routeFromLines : List String → Option String
  | [] => none
  | line :: rest =>
      if "urls: ".data.isPrefixOf line.data then some ⟨line.data.drop "urls: ".data.length⟩
      else routeFromLines rest

/-- `getRoute` (`helpers/cloud_foundry.go:186-203`): query the app status;
propagate a query failure; otherwise scan the output lines for the route
and fail with `"No URL found for app <name>"` when no line carries it. -/
def getRoute (cf : CloudFoundry) (name : String) (env : CFEnv)
    (hist : List CmdArgs) : Except String String × List CmdArgs :=
  match env hist (appArgs name) with
  | CmdResult.err m => (Except.error m, hist ++ [appArgs name])
  | CmdResult.ok out =>
    match routeFromLines (goSplitLines out) with
    | some route => (Except.ok route, hist ++ [appArgs name])
    | none => (Except.error ("No URL found for app " ++ name), hist ++ [appArgs name])

/-- `Create` (`helpers/cloud_foundry.go:69-81`): provision the declared
services with the caller-supplied timeout, then push the app, then
recover its route; each stage gates the next. -/
def Create (cf : CloudFoundry) (app : App) (manifest path : String) (timeout : Int)
    (env : CFEnv) (hist : List CmdArgs) : Except String String × List CmdArgs :=
  match createServices cf app.services timeout env hist with
  | (Except.error e, h) => (Except.error e, h)
  | (Except.ok _, h) =>
    match createApp cf "testapp" manifest path env h with
    | (Except.error e, h₂) => (Except.error e, h₂)
    | (Except.ok _, h₂) => getRoute cf "testapp" env h₂

/-- Well-ordered provisioning trace: `segsOk svcs h tr` states that the
command trace `tr`, issued after history `h`, consists of one segment per
declared service in declaration order, each segment being that service's
creation command followed by its readiness polls, with `checkService`
reporting ready before the next segment starts. -/
def segsOk (cf : CloudFoundry) (timeout : Int) (env : CFEnv) :
    List Service → List CmdArgs → List CmdArgs → Prop
  | [], _, tr => tr = []
  | svc :: rest, h, tr => ∃ polls tr₂,
      tr = createArgs svc :: (polls ++ tr₂) ∧
      checkService cf svc timeout env (h ++ [createArgs svc]) =
        (Except.ok (), (h ++ [createArgs svc]) ++ polls) ∧
      segsOk cf timeout env rest ((h ++ [createArgs svc]) ++ polls) tr₂

/-- Modelled from the spec: the on-disk descriptor handled by the manifest
mutator, whose code (`NewManifest` / `AddEnvironmentVariable` / `Save`,
called from the deploy handlers at `main.go:391-395`) is not among the
sources under verification. Per the spec the mutator "sets one
environment entry's value per supplied name, then serializes the result
back to the same path" and "must preserve every field it does not touch";
the document is therefore modelled as its environment mapping plus its
untouched remaining fields. -/
structure Manifest where
  env : List (String × String)
  otherFields : List (String × String)
deriving DecidableEq

/-- Modelled from the spec: setting one environment entry's value — the
entry is updated in place when the name is present and appended
otherwise; no other entry is touched. -/
def setEnvEntry (e : List (String × String)) (n v : String) : List (String × String) :=
  if e.any (fun p => p.1 == n) then e.map (fun p => if p.1 == n then (n, v) else p)
  else e ++ [(n, v)]

/-- Modelled from the spec: `AddEnvironmentVariable` sets one environment
entry and preserves every other field of the document. -/
def AddEnvironmentVariable (m : Manifest) (n v : String) : Manifest :=
  { m with env := setEnvEntry m.env n v }

/-- Mutation loop of the deploy handler (`main.go:392-394`, likewise the
refactored handler): for every declared name, write the operator-supplied
form value — supplied or not — into the on-disk descriptor. The
`*EnvVar` (pointer) variant of the descriptor is followed, in which the
validation loop's assignment `envvar.Value = r.Form.Get(name)` is
visible to this loop. -/
def mutateManifest (envvars : List (String × EnvVar)) (form : String → String)
    (m : Manifest) : Manifest :=
  envvars.foldl (fun acc p => AddEnvironmentVariable acc p.1 (form p.1)) m

/-- Stages the deploy handler executes after loading the descriptor
(`main.go:367-404`): archive download and extraction, on-disk manifest
mutation, session directory write, service provisioning and push. -/
inductive DeployStage where
  | download
  | mutate
  | writeSession
  | create
deriving DecidableEq

/-- Validation loop of the deploy handler (`main.go:354-360`): collect the
names of required environment variables whose operator-supplied form
value is empty. -/
def deployValidationErrors (envvars : List (String × EnvVar)) (form : String → String) :
    List String :=
  envvars.foldl (fun errs p => if p.2.required && (form p.1 == "") then errs ++ [p.1] else errs) []

/-- Control flow of the deploy handler after the descriptor is loaded
(`main.go:354-405`): when validation fails an HTTP 400 status is written,
and — the block lacking a `return` — the handler then runs the download,
mutation, session-write and create stages regardless. External steps are
taken on their success path, which the validation outcome cannot
influence in the source. -/
def deployAfterLoad (envvars : List (String × EnvVar)) (form : String → String) :
    Option Nat × List DeployStage :=
  let errs := deployValidationErrors envvars form
  ((if errs.length > 0 then some 400 else none),
   [DeployStage.download, DeployStage.mutate, DeployStage.writeSession, DeployStage.create])

/-- One element step of Go `path/filepath.Clean`: skip empty and `.`
elements, let `..` pop the last kept element (kept literally when there
is nothing to pop in a relative path, dropped at the root of an absolute
path). The accumulator holds kept elements in reverse. -/
def cleanComponents (rooted : Bool) : List String → List String → List String
  | [], acc => acc.reverse
  | c :: rest, acc =>
      if c = "" ∨ c = "." then cleanComponents rooted rest acc
      else if c = ".." then
        match acc with
        | [] =>
            if rooted then cleanComponents rooted rest []
            else cleanComponents rooted rest [".."]
        | a :: acc' =>
            if a = ".." then cleanComponents rooted rest (".." :: a :: acc')
            else cleanComponents rooted rest acc'
      else cleanComponents rooted rest (c :: acc)

/-- Whether a path is absolute. -/
def isRooted (p : String) : Bool :=
  match p.data with
  | c :: _ => c = '/'
  | [] => false

/-- Go `path/filepath.Clean` (unix rules), as applied by `filepath.Join`. -/
def goClean (p : String) : String :=
  if p = "" then "."
  else
    let comps := cleanComponents (isRooted p) (goSplit p '/') []
    let out := String.intercalate "/" comps
    if isRooted p then "/" ++ out
    else if out = "" then "." else out

/-- Go `filepath.Join(a, b)`: concatenate the non-empty elements with a
separator and clean the result. -/
def goJoin (a b : String) : String :=
  if a = "" && b = "" then ""
  else if a = "" then goClean b
  else if b = "" then goClean a
  else goClean (a ++ "/" ++ b)

/-- One parsed tar entry header, as yielded by `tarReader.Next()` in
`Untar` (`archive.go:19`): its name, whether it is a directory, and its
permission bits. -/
structure TarHeader where
  name : String
  isDir : Bool
  mode : Nat
deriving DecidableEq

/-- File system action taken by `Untar` for one entry: `MkdirAll` for a
directory, or `OpenFile(path, O_CREATE|O_TRUNC|O_WRONLY, mode)` followed
by writing the entry body for a regular file. -/
inductive FSAction where
  | mkdirAll (path : String) (mode : Nat)
  | openWrite (path : String) (mode : Nat)
deriving DecidableEq

/-- Target path of one entry in `Untar` (`archive.go:28`):
`filepath.Join(dest, header.Name)`, with no containment check. -/
def untarEntryPath (dest : String) (h : TarHeader) : String := goJoin dest h.name

/-- `Untar` (`archive.go:11-50`) over the parsed entry sequence of the
archive (stream decompression and I/O errors abstracted away: on the
success path every entry is materialised at its joined path). -/
def Untar (entries : List TarHeader) (dest : String) : List FSAction :=
  entries.map fun h =>
    if h.isDir then FSAction.mkdirAll (untarEntryPath dest h) h.mode
    else FSAction.openWrite (untarEntryPath dest h) h.mode

/-- Whether path `p` lies inside directory `dest` (equal to it or below it). -/
def isWithin (dest p : String) : Bool :=
  p == dest || (dest ++ "/").data.isPrefixOf p.data

/-- Whether an entry name contains a `..` path segment. -/
def containsDotDot (name : String) : Bool :=
  (goSplit name '/').any (fun s => s == "..")

/-! Concrete fixtures used by the witnesses. -/

/-- Concrete session for witnesses. -/
def cfW : CloudFoundry := ⟨"/tmp/deploy123/env", "sessiondoc"⟩

/-- Concrete service `db` for witnesses. -/
def svcW : Service := ⟨"rds", "shared-psql", "db", [], []⟩

/-- Concrete descriptor with the single service `db`. -/
def appW : App := ⟨[], [svcW]⟩

/-- Environment whose status queries always fail (every poll is a
non-match). -/
def envNoMatchW : CFEnv := fun _ _ => CmdResult.err "exit status 1"

/-- Environment that accepts the creation command of `svcW` and answers
every other command — in particular every status poll — with a failure. -/
def envNoReadyW : CFEnv := fun _ c =>
  if c == createArgs svcW then CmdResult.ok "" else CmdResult.err "exit status 1"

/-- First service of the failing-issuance witness pair. -/
def svcAW : Service := ⟨"rds", "micro", "svcA", [], []⟩

/-- Second service of the failing-issuance witness pair. -/
def svcBW : Service := ⟨"redis", "standard", "svcB", [], []⟩

/-- Environment that rejects `svcA`'s creation command and accepts
everything else. -/
def envFailAW : CFEnv := fun _ c =>
  if c == createArgs svcAW then CmdResult.err "boom" else CmdResult.ok ""

/-- Environment of the happy-path witness: creation succeeds, the first
status poll reports `create succeeded`, the push succeeds, and the app
status output carries a route line. -/
def envHappyW : CFEnv := fun _ c =>
  if c == serviceArgs svcW.label then CmdResult.ok "Status: create succeeded"
  else if c == appArgs "testapp" then
    CmdResult.ok "requested state: started\nurls: testapp.example.com"
  else CmdResult.ok ""

/-- Session of concurrent run A. -/
def cfRunA : CloudFoundry := ⟨"/tmp/run-a/env", "docA"⟩

/-- Session of concurrent run B. -/
def cfRunB : CloudFoundry := ⟨"/tmp/run-b/env", "docB"⟩

/-- Empty process environment. -/
def procEnv0 : ProcEnv := fun _ => none

/-- On-disk descriptor of the mutation witness: key `A` empty, key `B`
holding `"y"`, one untouched non-environment field. -/
def manifestW : Manifest := ⟨[("A", ""), ("B", "y")], [("memory", "256M")]⟩

/-- Declared contract of the mutation witness: `A` required, `B` optional. -/
def contractW : List (String × EnvVar) := [("A", ⟨"", true, ""⟩), ("B", ⟨"", false, ""⟩)]

/-- Operator form of the mutation witness: only `A` is supplied. -/
def formW : String → String := fun n => if n == "A" then "x" else ""

/-- First-match lookup in a serialized environment mapping (statement-side
accessor for the mutation claims). -/
def lookupEnv : List (String × String) → String → Option String
  | [], _ => none
  | p :: rest, k => if p.1 == k then some p.2 else lookupEnv rest k

/-! Poll-loop lemmas. -/

/-- When every status poll is a non-match, the poll loop runs exactly
until `elapsed` exceeds `timeout` — one poll per 5 time units plus the
final one — and fails naming the service's label. -/
theorem checkServiceLoop_nonmatch (cf : CloudFoundry) (svc : Service) (timeout : Int)
    (env : CFEnv) (hm : ∀ h, matchesSuccess (env h (serviceArgs svc.label)) = false) :
    ∀ (n : Nat) (e : Int) (h : List CmdArgs), (timeout - e).toNat ≤ n →
      checkServiceLoop cf svc timeout env h e =
        (Except.error ("Service " ++ svc.label ++ " incomplete"),
         h ++ List.replicate ((timeout - e).toNat / 5 + 1) (serviceArgs svc.label)) := by
  intro n
  induction n with
  | zero =>
    intro e h hle
    rw [checkServiceLoop, if_neg (by simp [hm h]), dif_pos (by omega)]
    have h0 : (timeout - e).toNat = 0 := by omega
    rw [h0]
    simp
  | succ n ih =>
    intro e h hle
    rw [checkServiceLoop, if_neg (by simp [hm h])]
    by_cases hc : e + 5 > timeout
    · rw [dif_pos hc]
      have h0 : (timeout - e).toNat / 5 = 0 := Nat.div_eq_of_lt (by omega)
      rw [h0]
      simp
    · rw [dif_neg hc]
      rw [ih (e + 5) (h ++ [serviceArgs svc.label]) (by omega)]
      have h5 : (timeout - e).toNat = (timeout - (e + 5)).toNat + 5 := by omega
      rw [h5, Nat.add_div_right _ (by norm_num), List.append_assoc]
      simp [List.replicate_succ]

/-- Entry-point form of `checkServiceLoop_nonmatch`: starting from
`elapsed = 0` the loop fails after `timeout / 5 + 1` polls. -/
theorem checkService_nonmatch (cf : CloudFoundry) (svc : Service) (timeout : Int)
    (env : CFEnv) (hist : List CmdArgs)
    (hm : ∀ h, matchesSuccess (env h (serviceArgs svc.label)) = false) :
    checkService cf svc timeout env hist =
      (Except.error ("Service " ++ svc.label ++ " incomplete"),
       hist ++ List.replicate (timeout.toNat / 5 + 1) (serviceArgs svc.label)) := by
  have := checkServiceLoop_nonmatch cf svc timeout env hm (timeout - 0).toNat 0 hist le_rfl
  simpa [checkService] using this

/-- A loop iteration whose query matched returns ready at once. -/
theorem checkServiceLoop_matched (cf : CloudFoundry) (svc : Service) (timeout : Int)
    (env : CFEnv) (h : List CmdArgs) (e : Int)
    (hm : matchesSuccess (env h (serviceArgs svc.label)) = true) :
    checkServiceLoop cf svc timeout env h e = (Except.ok (), h ++ [serviceArgs svc.label]) := by
  rw [checkServiceLoop, if_pos hm]

/-- The poll loop only appends to the command history. -/
theorem checkServiceLoop_extends (cf : CloudFoundry) (svc : Service) (timeout : Int)
    (env : CFEnv) :
    ∀ (n : Nat) (e : Int) (h : List CmdArgs), (timeout - e).toNat ≤ n →
      ∃ tl, (checkServiceLoop cf svc timeout env h e).2 = h ++ tl := by
  intro n
  induction n with
  | zero =>
    intro e h hle
    rw [checkServiceLoop]
    by_cases hm : matchesSuccess (env h (serviceArgs svc.label)) = true
    · rw [if_pos hm]; exact ⟨[serviceArgs svc.label], rfl⟩
    · rw [if_neg hm, dif_pos (by omega)]; exact ⟨[serviceArgs svc.label], rfl⟩
  | succ n ih =>
    intro e h hle
    rw [checkServiceLoop]
    by_cases hm : matchesSuccess (env h (serviceArgs svc.label)) = true
    · rw [if_pos hm]; exact ⟨[serviceArgs svc.label], rfl⟩
    · rw [if_neg hm]
      by_cases hc : e + 5 > timeout
      · rw [dif_pos hc]; exact ⟨[serviceArgs svc.label], rfl⟩
      · rw [dif_neg hc]
        obtain ⟨tl, htl⟩ := ih (e + 5) (h ++ [serviceArgs svc.label]) (by omega)
        exact ⟨[serviceArgs svc.label] ++ tl, by rw [htl, List.append_assoc]⟩

/-- C2: for every service and every timeout value, if every status query
reports a non-matching status, `checkService` terminates — it is a total
function whose poll count is bounded by the elapsed-time check — and
returns the error `"Service <label> incomplete"` naming the service's
label, after issuing `timeout / 5 + 1` polls. -/
theorem claim2_checkService_times_out (cf : CloudFoundry) (svc : Service) (timeout : Int)
    (env : CFEnv) (hist : List CmdArgs)
    (hm : ∀ h, matchesSuccess (env h (serviceArgs svc.label)) = false) :
    checkService cf svc timeout env hist =
      (Except.error ("Service " ++ svc.label ++ " incomplete"),
       hist ++ List.replicate (timeout.toNat / 5 + 1) (serviceArgs svc.label)) :=
  checkService_nonmatch cf svc timeout env hist hm

/-- Witness for C2 at `timeout = 30` with an always-failing query:
`checkService` returns the timeout error for label `db` after 7 polls. -/
theorem claim2_witness :
    checkService cfW svcW 30 envNoMatchW [] =
      (Except.error ("Service " ++ svcW.label ++ " incomplete"),
       [] ++ List.replicate ((30 : Int).toNat / 5 + 1) (serviceArgs svcW.label)) :=
  claim2_checkService_times_out cfW svcW 30 envNoMatchW [] (fun _ => rfl)

/-- C8: a poll iteration whose status query fails (the command returns an
error) does not abort the provisioner: while the bound is not yet
exceeded, the loop state advances exactly as for a non-matching status —
the elapsed time grows by 5 and the next query is issued. -/
theorem claim8_transient_error_continues (cf : CloudFoundry) (svc : Service) (timeout : Int)
    (env : CFEnv) (hist : List CmdArgs) (elapsed : Int) (m : String)
    (herr : env hist (serviceArgs svc.label) = CmdResult.err m)
    (hb : elapsed + 5 ≤ timeout) :
    checkServiceLoop cf svc timeout env hist elapsed =
      checkServiceLoop cf svc timeout env (hist ++ [serviceArgs svc.label]) (elapsed + 5) := by
  conv_lhs => rw [checkServiceLoop]
  rw [if_neg (by simp [herr, matchesSuccess]), dif_neg (by omega)]

/-- Witness for C8: with an always-failing query at `timeout = 30`, the
first failing poll leads to the next iteration rather than an abort. -/
theorem claim8_witness :
    checkServiceLoop cfW svcW 30 envNoMatchW [] 0 =
      checkServiceLoop cfW svcW 30 envNoMatchW ([] ++ [serviceArgs svcW.label]) (0 + 5) :=
  claim8_transient_error_continues cfW svcW 30 envNoMatchW [] 0 "exit status 1" rfl (by norm_num)

/-- C4: if the creation-issuance command of a service fails after the
services before it provisioned successfully, `createServices` aborts at
once with that error: the trace grows by exactly the one failed issuance
— so the creation command of every later service is never issued and the
failed issuance is not retried. -/
theorem claim4_issuance_failure_is_fail_fast (cf : CloudFoundry) (pre : List Service)
    (svcF : Service) (post : List Service) (timeout : Int) (env : CFEnv)
    (hist hist₁ : List CmdArgs) (m : String)
    (hpre : createServices cf pre timeout env hist = (Except.ok (), hist₁))
    (hfail : env hist₁ (createArgs svcF) = CmdResult.err m) :
    createServices cf (pre ++ svcF :: post) timeout env hist =
      (Except.error m, hist₁ ++ [createArgs svcF]) := by
  induction pre generalizing hist with
  | nil =>
    simp only [createServices] at hpre
    obtain ⟨-, rfl⟩ := Prod.mk.injEq .. ▸ hpre
    simp only [List.nil_append, createServices, createService, hfail]
  | cons s pre ih =>
    simp only [createServices] at hpre ⊢
    rcases hcs : createService cf s timeout env hist with ⟨r₁, h₁⟩
    rw [hcs] at hpre
    cases r₁ with
    | error e => simp at hpre
    | ok u =>
      simp only at hpre
      simpa using ih h₁ hpre

/-- Witness for C4: with `svcA`'s creation rejected, provisioning
`[svcA, svcB]` stops after the single failed issuance and `svcB` is never
issued. -/
theorem claim4_witness :
    createServices cfW ([] ++ svcAW :: [svcBW]) 30 envFailAW [] =
      (Except.error "boom", [] ++ [createArgs svcAW]) :=
  claim4_issuance_failure_is_fail_fast cfW [] svcAW [svcBW] 30 envFailAW [] [] "boom" rfl rfl

/-- C7: the poll-loop limit used while checking a service's readiness
during `Create` is exactly the caller-supplied `timeout` argument of
`Create`, not a hard-coded constant: with an accepted creation command
and never-matching polls, the run issues `timeout / 5 + 1` polls — a
count varying with the caller's argument — before failing. -/
theorem claim7_poll_limit_is_caller_timeout (cf : CloudFoundry) (app : App) (svc : Service)
    (manifest path : String) (timeout : Int) (env : CFEnv) (hist : List CmdArgs) (s : String)
    (hsv : app.services = [svc])
    (hcreate : env hist (createArgs svc) = CmdResult.ok s)
    (hm : ∀ h, matchesSuccess (env h (serviceArgs svc.label)) = false) :
    Create cf app manifest path timeout env hist =
      (Except.error ("Service " ++ svc.label ++ " incomplete"),
       (hist ++ [createArgs svc])
         ++ List.replicate (timeout.toNat / 5 + 1) (serviceArgs svc.label)) := by
  rw [Create, hsv]
  simp only [createServices, createService, hcreate]
  rw [checkService_nonmatch cf svc timeout env (hist ++ [createArgs svc]) hm]

/-- Witness for C7 at `timeout = 30`: the single-service deployment polls
`30 / 5 + 1 = 7` times before failing. -/
theorem claim7_witness :
    Create cfW appW "manifest.yml" "/tmp/deploy123/app" 30 envNoReadyW [] =
      (Except.error ("Service " ++ svcW.label ++ " incomplete"),
       ([] ++ [createArgs svcW])
         ++ List.replicate ((30 : Int).toNat / 5 + 1) (serviceArgs svcW.label)) :=
  claim7_poll_limit_is_caller_timeout cfW appW svcW "manifest.yml" "/tmp/deploy123/app" 30
    envNoReadyW [] "" rfl (by decide) (fun _ => rfl)

/-! Route-discovery lemmas. -/

/-- The line scan returns the first marked line, stripped. -/
theorem routeFromLines_first (pre : List String) (l : String) (post : List String)
    (hpre : ∀ l' ∈ pre, ("urls: ".data.isPrefixOf l'.data) = false)
    (hl : ("urls: ".data.isPrefixOf l.data) = true) :
    routeFromLines (pre ++ l :: post) = some ⟨l.data.drop "urls: ".data.length⟩ := by
  induction pre with
  | nil => rw [List.nil_append, routeFromLines, if_pos hl]
  | cons p pre ih =>
    rw [List.cons_append, routeFromLines, if_neg (by simp [hpre p (by simp)])]
    exact ih (fun l' hm => hpre l' (by simp [hm]))

/-- The line scan finds nothing when no line carries the marker. -/
theorem routeFromLines_none (lines : List String)
    (hnone : ∀ l ∈ lines, ("urls: ".data.isPrefixOf l.data) = false) :
    routeFromLines lines = none := by
  induction lines with
  | nil => rfl
  | cons p lines ih =>
    rw [routeFromLines, if_neg (by simp [hnone p (by simp)])]
    exact ih (fun l hm => hnone l (by simp [hm]))

/-- C6: when the app-status query succeeds, `getRoute` returns the first
output line starting with the literal marker `"urls: "`, with the leading
marker stripped; when no line starts with the marker it fails with the
distinct route-discovery error `"No URL found for app <name>"`, even
though the status query (and hence the preceding push) succeeded. -/
theorem claim6_getRoute_route_discovery (cf : CloudFoundry) (name : String) (env : CFEnv)
    (hist : List CmdArgs) (out : String)
    (hq : env hist (appArgs name) = CmdResult.ok out) :
    (∀ pre l post, goSplitLines out = pre ++ l :: post →
        (∀ l' ∈ pre, ("urls: ".data.isPrefixOf l'.data) = false) →
        ("urls: ".data.isPrefixOf l.data) = true →
        getRoute cf name env hist =
          (Except.ok (⟨l.data.drop "urls: ".data.length⟩ : String), hist ++ [appArgs name])) ∧
    ((∀ l ∈ goSplitLines out, ("urls: ".data.isPrefixOf l.data) = false) →
        getRoute cf name env hist =
          (Except.error ("No URL found for app " ++ name), hist ++ [appArgs name])) := by
  constructor
  · intro pre l post hsplit hpre hl
    rw [getRoute, hq]
    dsimp only
    rw [hsplit, routeFromLines_first pre l post hpre hl]
  · intro hnone
    rw [getRoute, hq]
    dsimp only
    rw [routeFromLines_none (goSplitLines out) hnone]

/-- Witness for C6: the status output line `urls: testapp.example.com`
yields exactly the route `testapp.example.com`. -/
theorem claim6_witness :
    getRoute cfW "testapp" envHappyW [] =
      (Except.ok (⟨("urls: testapp.example.com").data.drop "urls: ".data.length⟩ : String),
       [] ++ [appArgs "testapp"]) ∧
    (⟨("urls: testapp.example.com").data.drop "urls: ".data.length⟩ : String) =
      "testapp.example.com" := by
  constructor
  · exact (claim6_getRoute_route_discovery cfW "testapp" envHappyW []
      "requested state: started\nurls: testapp.example.com" rfl).1
      ["requested state: started"] "urls: testapp.example.com" [] (by decide) (by decide)
      (by decide)
  · decide

/-! Provisioning-order lemmas. -/

/-- A successful `createService` appended the creation command and then
its readiness polls, with `checkService` reporting ready. -/
theorem createService_ok_shape (cf : CloudFoundry) (svc : Service) (timeout : Int)
    (env : CFEnv) (h h₂ : List CmdArgs) (u : Unit)
    (hcs : createService cf svc timeout env h = (Except.ok u, h₂)) :
    ∃ polls, h₂ = (h ++ [createArgs svc]) ++ polls ∧
      checkService cf svc timeout env (h ++ [createArgs svc]) =
        (Except.ok u, (h ++ [createArgs svc]) ++ polls) := by
  rw [createService] at hcs
  cases henv : env h (createArgs svc) with
  | err m => rw [henv] at hcs; simp at hcs
  | ok s =>
    rw [henv] at hcs
    dsimp only at hcs
    obtain ⟨tl, htl⟩ := checkServiceLoop_extends cf svc timeout env (timeout - 0).toNat 0
      (h ++ [createArgs svc]) le_rfl
    have hcs' : checkServiceLoop cf svc timeout env (h ++ [createArgs svc]) 0 =
        (Except.ok u, h₂) := hcs
    have hsnd : h₂ = h ++ [createArgs svc] ++ tl := by
      rw [← htl, hcs']
    refine ⟨tl, hsnd, ?_⟩
    show checkServiceLoop cf svc timeout env (h ++ [createArgs svc]) 0 = _
    rw [hcs', hsnd]

/-- A successful `createApp` appended exactly the push command. -/
theorem createApp_ok_trace (cf : CloudFoundry) (app manifest path : String) (env : CFEnv)
    (h h₂ : List CmdArgs) (u : Unit)
    (hca : createApp cf app manifest path env h = (Except.ok u, h₂)) :
    h₂ = h ++ [pushArgs app manifest path] := by
  rw [createApp] at hca
  cases henv : env h (pushArgs app manifest path) with
  | err m => rw [henv] at hca; simp at hca
  | ok s =>
    rw [henv] at hca
    dsimp only at hca
    exact ((Prod.mk.injEq .. ▸ hca).2).symm

/-- A successful `getRoute` appended exactly the app-status query. -/
theorem getRoute_ok_trace (cf : CloudFoundry) (name : String) (env : CFEnv)
    (h h₂ : List CmdArgs) (route : String)
    (hgr : getRoute cf name env h = (Except.ok route, h₂)) :
    h₂ = h ++ [appArgs name] := by
  rw [getRoute] at hgr
  cases henv : env h (appArgs name) with
  | err m => rw [henv] at hgr; simp at hgr
  | ok out =>
    rw [henv] at hgr
    dsimp only at hgr
    cases hr : routeFromLines (goSplitLines out) with
    | none => rw [hr] at hgr; simp at hgr
    | some r =>
      rw [hr] at hgr
      exact ((Prod.mk.injEq .. ▸ hgr).2).symm

/-- A successful `createServices` run decomposes into per-service
segments in declaration order. -/
theorem createServices_ok_segs (cf : CloudFoundry) (timeout : Int) (env : CFEnv) :
    ∀ (svcs : List Service) (h h₂ : List CmdArgs),
      createServices cf svcs timeout env h = (Except.ok (), h₂) →
      ∃ tr, h₂ = h ++ tr ∧ segsOk cf timeout env svcs h tr := by
  intro svcs
  induction svcs with
  | nil =>
    intro h h₂ hcs
    simp only [createServices] at hcs
    obtain ⟨-, rfl⟩ := Prod.mk.injEq .. ▸ hcs
    exact ⟨[], by simp, rfl⟩
  | cons s rest ih =>
    intro h h₂ hcs
    simp only [createServices] at hcs
    rcases hone : createService cf s timeout env h with ⟨r₁, h₁⟩
    rw [hone] at hcs
    cases r₁ with
    | error e => simp at hcs
    | ok u =>
      simp only at hcs
      obtain ⟨polls, hpolls, hcheck⟩ := createService_ok_shape cf s timeout env h h₁ u hone
      obtain ⟨tr₂, htr₂, hsegs⟩ := ih h₁ h₂ hcs
      refine ⟨createArgs s :: (polls ++ tr₂), ?_, ?_⟩
      · rw [htr₂, hpolls]
        simp
      · refine ⟨polls, tr₂, rfl, ?_, ?_⟩
        · cases u; exact hpolls ▸ hcheck
        · rw [← hpolls]; exact hsegs

/-- C9: a successful `Create` run issues, after the inherited history,
one segment per declared service in declaration order — each segment
being that service's creation command followed by its readiness polls,
with `checkService` reporting ready before the next creation command is
issued — and only after the last service's segment the app push, followed
by the route query. -/
theorem claim9_services_in_order_push_last (cf : CloudFoundry) (app : App)
    (manifest path : String) (timeout : Int) (env : CFEnv) (hist : List CmdArgs)
    (route : String) (h' : List CmdArgs)
    (hC : Create cf app manifest path timeout env hist = (Except.ok route, h')) :
    ∃ trS, h' = ((hist ++ trS) ++ [pushArgs "testapp" manifest path]) ++ [appArgs "testapp"] ∧
      segsOk cf timeout env app.services hist trS := by
  rw [Create] at hC
  rcases hS : createServices cf app.services timeout env hist with ⟨rS, h₁⟩
  rw [hS] at hC
  cases rS with
  | error e => simp at hC
  | ok uS =>
    simp only at hC
    rcases hA : createApp cf "testapp" manifest path env h₁ with ⟨rA, h₂⟩
    rw [hA] at hC
    cases rA with
    | error e => simp at hC
    | ok uA =>
      simp only at hC
      cases uS
      obtain ⟨trS, htrS, hsegs⟩ := createServices_ok_segs cf timeout env app.services hist h₁ hS
      have hpush := createApp_ok_trace cf "testapp" manifest path env h₁ h₂ uA hA
      have happ := getRoute_ok_trace cf "testapp" env h₂ h' route hC
      exact ⟨trS, by rw [happ, hpush, htrS], hsegs⟩

/-- Witness for C9: a single-service happy-path run issues the creation
command, one matching poll, the push and the route query, in that order. -/
theorem claim9_witness :
    ∃ trS,
      ([createArgs svcW, serviceArgs svcW.label,
        pushArgs "testapp" "manifest.yml" "/tmp/deploy123/app", appArgs "testapp"] :
        List CmdArgs) =
        ((([] : List CmdArgs) ++ trS) ++ [pushArgs "testapp" "manifest.yml" "/tmp/deploy123/app"])
          ++ [appArgs "testapp"] ∧
      segsOk cfW 30 envHappyW appW.services [] trS := by
  have h1 : createServices cfW appW.services 30 envHappyW [] =
      (Except.ok (), [createArgs svcW, serviceArgs svcW.label]) := by
    rw [show appW.services = [svcW] from rfl]
    simp only [createServices, createService]
    rw [show envHappyW [] (createArgs svcW) = CmdResult.ok "" from rfl]
    have hc : checkService cfW svcW 30 envHappyW ([] ++ [createArgs svcW]) =
        (Except.ok (), ([] ++ [createArgs svcW]) ++ [serviceArgs svcW.label]) :=
      checkServiceLoop_matched cfW svcW 30 envHappyW ([] ++ [createArgs svcW]) 0 (by decide)
    rw [hc]
    rfl
  have hC : Create cfW appW "manifest.yml" "/tmp/deploy123/app" 30 envHappyW [] =
      (Except.ok "testapp.example.com",
       [createArgs svcW, serviceArgs svcW.label,
        pushArgs "testapp" "manifest.yml" "/tmp/deploy123/app", appArgs "testapp"]) := by
    rw [Create, h1]
    rfl
  exact claim9_services_in_order_push_last cfW appW "manifest.yml" "/tmp/deploy123/app" 30
    envHappyW [] "testapp.example.com" _ hC

/-! Environment-mapping lemmas for the mutation claims. -/

/-- Updating a present key in place makes it look up to the new value. -/
theorem lookupEnv_map_update (n v : String) :
    ∀ e : List (String × String), e.any (fun p => p.1 == n) = true →
      lookupEnv (e.map (fun p => if p.1 == n then (n, v) else p)) n = some v := by
  intro e
  induction e with
  | nil => intro hany; simp at hany
  | cons p e ih =>
    intro hany
    by_cases hp : (p.1 == n) = true
    · rw [List.map_cons, if_pos hp, lookupEnv, if_pos (by simp)]
    · rw [List.map_cons, if_neg hp, lookupEnv, if_neg hp]
      refine ih ?_
      rcases List.any_eq_true.mp hany with ⟨q, hq, hqn⟩
      rcases List.mem_cons.mp hq with hq | hq
      · exact absurd (hq ▸ hqn) hp
      · exact List.any_eq_true.mpr ⟨q, hq, hqn⟩

/-- Appending a fresh key makes it look up to the new value. -/
theorem lookupEnv_append_absent (n v : String) :
    ∀ e : List (String × String), e.any (fun p => p.1 == n) = false →
      lookupEnv (e ++ [(n, v)]) n = some v := by
  intro e
  induction e with
  | nil =>
    intro hany
    simp [lookupEnv]
  | cons p e ih =>
    intro hany
    rw [List.any_cons, Bool.or_eq_false_iff] at hany
    rw [List.cons_append, lookupEnv, if_neg (by simp [hany.1])]
    exact ih hany.2

/-- `setEnvEntry` sets the named entry's value. -/
theorem lookupEnv_setEnvEntry_self (e : List (String × String)) (n v : String) :
    lookupEnv (setEnvEntry e n v) n = some v := by
  rw [setEnvEntry]
  by_cases hany : e.any (fun p => p.1 == n) = true
  · rw [if_pos hany]; exact lookupEnv_map_update n v e hany
  · rw [if_neg hany]
    exact lookupEnv_append_absent n v e (Bool.not_eq_true _ ▸ hany)

/-- `setEnvEntry` leaves every other key's value unchanged. -/
theorem lookupEnv_setEnvEntry_other (e : List (String × String)) (n v k : String)
    (hk : k ≠ n) :
    lookupEnv (setEnvEntry e n v) k = lookupEnv e k := by
  have hnk : ¬((n : String) == k) = true := by
    simp only [beq_iff_eq]
    exact fun h => hk h.symm
  rw [setEnvEntry]
  by_cases hany : e.any (fun p => p.1 == n) = true
  · rw [if_pos hany]
    clear hany
    induction e with
    | nil => rfl
    | cons p e ih =>
      by_cases hp : (p.1 == n) = true
      · have hpk : ¬(p.1 == k) = true := by
          simp only [beq_iff_eq]
          rw [eq_of_beq hp]
          exact fun h => hk h.symm
        rw [List.map_cons, if_pos hp, lookupEnv, lookupEnv, if_neg hnk, if_neg hpk]
        exact ih
      · rw [List.map_cons, if_neg hp, lookupEnv, lookupEnv]
        by_cases hkp : (p.1 == k) = true
        · rw [if_pos hkp, if_pos hkp]
        · rw [if_neg hkp, if_neg hkp]
          exact ih
  · rw [if_neg hany]
    clear hany
    induction e with
    | nil =>
      rw [List.nil_append]
      simp [lookupEnv, hnk]
    | cons p e ih =>
      rw [List.cons_append, lookupEnv, lookupEnv]
      by_cases hkp : (p.1 == k) = true
      · rw [if_pos hkp, if_pos hkp]
      · rw [if_neg hkp, if_neg hkp]
        exact ih

/-- `setEnvEntry` adds and removes no key other than the named one. -/
theorem mem_keys_setEnvEntry (e : List (String × String)) (n v k : String) (hk : k ≠ n) :
    k ∈ (setEnvEntry e n v).map Prod.fst ↔ k ∈ e.map Prod.fst := by
  rw [setEnvEntry]
  by_cases hany : e.any (fun p => p.1 == n) = true
  · rw [if_pos hany]
    clear hany
    induction e with
    | nil => rfl
    | cons p e ih =>
      by_cases hp : (p.1 == n) = true
      · rw [List.map_cons, if_pos hp]
        simp only [List.map_cons, List.mem_cons]
        rw [eq_of_beq hp]
        exact or_congr Iff.rfl ih
      · rw [List.map_cons, if_neg hp]
        simp only [List.map_cons, List.mem_cons]
        exact or_congr Iff.rfl ih
  · rw [if_neg hany]
    simp [hk]

/-- C5 counterexample: mutating the witness descriptor — declared keys
`A` (required) and `B` (optional), only `A` supplied — does change key
`B`'s serialized value, contrary to the claim: the handler's loop writes
the empty supplied value over `B`'s prior value `"y"`. -/
theorem claim5_counterexample :
    lookupEnv (mutateManifest contractW formW manifestW).env "B" ≠
      lookupEnv manifestW.env "B" := by decide

/-- C5 as amended: mutating a descriptor with declared keys `A` and `B`
while supplying `A = x` and leaving `B` unsupplied sets `A`'s serialized
value to `x`, overwrites `B`'s serialized value with the empty string,
leaves every key not declared in the contract unchanged — neither adding
nor removing any such key — and preserves all non-environment fields. -/
theorem claim5_mutation_amended (A B x : String) (specA specB : EnvVar)
    (form : String → String) (m : Manifest)
    (hAB : A ≠ B) (hA : form A = x) (hB : form B = "") :
    lookupEnv (mutateManifest [(A, specA), (B, specB)] form m).env A = some x ∧
    lookupEnv (mutateManifest [(A, specA), (B, specB)] form m).env B = some "" ∧
    (mutateManifest [(A, specA), (B, specB)] form m).otherFields = m.otherFields ∧
    (∀ k, k ≠ A → k ≠ B →
      lookupEnv (mutateManifest [(A, specA), (B, specB)] form m).env k =
        lookupEnv m.env k) ∧
    (∀ k, k ≠ A → k ≠ B →
      (k ∈ (mutateManifest [(A, specA), (B, specB)] form m).env.map Prod.fst ↔
        k ∈ m.env.map Prod.fst)) := by
  have henv : (mutateManifest [(A, specA), (B, specB)] form m).env =
      setEnvEntry (setEnvEntry m.env A (form A)) B (form B) := rfl
  refine ⟨?_, ?_, rfl, ?_, ?_⟩
  · rw [henv, lookupEnv_setEnvEntry_other _ _ _ _ hAB, hA]
    exact lookupEnv_setEnvEntry_self m.env A x
  · rw [henv, hB]
    exact lookupEnv_setEnvEntry_self _ B ""
  · intro k hkA hkB
    rw [henv, lookupEnv_setEnvEntry_other _ _ _ _ hkB,
      lookupEnv_setEnvEntry_other _ _ _ _ hkA]
  · intro k hkA hkB
    rw [henv]
    exact (mem_keys_setEnvEntry _ B (form B) k hkB).trans
      (mem_keys_setEnvEntry m.env A (form A) k hkA)

/-- Witness for the amended C5 at the concrete witness fixtures. -/
theorem claim5_witness :
    lookupEnv (mutateManifest [("A", (⟨"", true, ""⟩ : EnvVar)),
        ("B", (⟨"", false, ""⟩ : EnvVar))] formW manifestW).env "A" = some "x" ∧
    lookupEnv (mutateManifest [("A", (⟨"", true, ""⟩ : EnvVar)),
        ("B", (⟨"", false, ""⟩ : EnvVar))] formW manifestW).env "B" = some "" ∧
    (mutateManifest [("A", (⟨"", true, ""⟩ : EnvVar)),
        ("B", (⟨"", false, ""⟩ : EnvVar))] formW manifestW).otherFields =
      manifestW.otherFields ∧
    (∀ k, k ≠ "A" → k ≠ "B" →
      lookupEnv (mutateManifest [("A", (⟨"", true, ""⟩ : EnvVar)),
        ("B", (⟨"", false, ""⟩ : EnvVar))] formW manifestW).env k =
        lookupEnv manifestW.env k) ∧
    (∀ k, k ≠ "A" → k ≠ "B" →
      (k ∈ (mutateManifest [("A", (⟨"", true, ""⟩ : EnvVar)),
        ("B", (⟨"", false, ""⟩ : EnvVar))] formW manifestW).env.map Prod.fst ↔
        k ∈ manifestW.env.map Prod.fst)) :=
  claim5_mutation_amended "A" "B" "x" ⟨"", true, ""⟩ ⟨"", false, ""⟩ formW manifestW
    (by decide) rfl rfl

/-! Isolation claims. -/

/-- C3 counterexample: two runs with distinct temporary directories do
mutate process-global state that scopes each other's CLI invocations —
when run B has set the global `CF_HOME` for its in-process push
(`helpers/cloud_foundry.go:143`), run A's `createApp` entry step
overwrites it, changing the home directory an in-process push of run B
is scoped by. -/
theorem claim3_counterexample :
    cfRunA.path ≠ cfRunB.path ∧
    inProcessPushHome (createAppSetsHome cfRunA (createAppSetsHome cfRunB procEnv0)) ≠
      inProcessPushHome (createAppSetsHome cfRunB procEnv0) := by
  constructor
  · decide
  · intro h
    simp only [inProcessPushHome, createAppSetsHome, goSetenv, Function.update_same] at h
    exact absurd h (by decide)

/-- C3 as amended: two runs with distinct temporary directories never
share session files — their session documents live at distinct paths and
writing one run's document leaves the other run's unchanged — and every
`cf` subprocess invocation carries the issuing run's own `CF_HOME` as the
last (hence effective) entry of its per-command environment; the
isolation does not extend to the in-process push, whose entry step sets
the process-global `CF_HOME` to the run's own directory. -/
theorem claim3_isolation_amended (cfA cfB : CloudFoundry) (fs : FileSys)
    (environ : List String) (g : ProcEnv) (hne : cfA.path ≠ cfB.path) :
    configPath cfA ≠ configPath cfB ∧
    writeConfig cfA fs (configPath cfB) = fs (configPath cfB) ∧
    (cfCmdEnv cfA environ).getLast? = some ("CF_HOME=" ++ cfA.path) ∧
    inProcessPushHome (createAppSetsHome cfA g) = some cfA.path := by
  have hpaths : configPath cfA ≠ configPath cfB := by
    intro h
    apply hne
    have hd := congrArg String.data h
    rw [configPath, configPath, String.data_append, String.data_append] at hd
    have := List.append_cancel_right hd
    calc cfA.path = ⟨cfA.path.data⟩ := rfl
      _ = ⟨cfB.path.data⟩ := by rw [this]
      _ = cfB.path := rfl
  refine ⟨hpaths, ?_, ?_, ?_⟩
  · rw [writeConfig]
    exact Function.update_noteq (fun h => hpaths h.symm) _ _
  · rw [cfCmdEnv, show ["CF_COLOR=true", "CF_HOME=" ++ cfA.path] =
      ["CF_COLOR=true"] ++ ["CF_HOME=" ++ cfA.path] from rfl, ← List.append_assoc]
    exact List.getLast?_concat _
  · rw [inProcessPushHome, createAppSetsHome, goSetenv]
    exact Function.update_same _ _ _

/-- Witness for the amended C3 at the two concrete runs. -/
theorem claim3_witness :
    configPath cfRunA ≠ configPath cfRunB ∧
    writeConfig cfRunA procEnv0 (configPath cfRunB) = procEnv0 (configPath cfRunB) ∧
    (cfCmdEnv cfRunA []).getLast? = some ("CF_HOME=" ++ cfRunA.path) ∧
    inProcessPushHome (createAppSetsHome cfRunA procEnv0) = some cfRunA.path :=
  claim3_isolation_amended cfRunA cfRunB procEnv0 [] procEnv0 (by decide)

/-- C1: the deploy handler's validation block lacks a `return` — on a
descriptor declaring a required environment variable whose supplied value
is empty, the handler records the validation failure (HTTP 400) and then
still runs the download, manifest-mutation, session-write and
provision-and-push stages. -/
theorem claim1_validation_does_not_stop_deploy :
    deployAfterLoad [("DATABASE_URL", ⟨"database url", true, ""⟩)] (fun _ => "") =
      (some 400,
       [DeployStage.download, DeployStage.mutate, DeployStage.writeSession,
        DeployStage.create]) := by decide

/-- C10: `Untar` materialises each entry at `filepath.Join(dest,
header.Name)` with no containment check, so an entry whose name contains
`..` segments is written outside the destination directory: the entry
`../../etc/passwd` of an archive extracted to `/tmp/work123` is opened
for create/truncate at `/etc/passwd`. -/
theorem claim10_untar_escapes_destination :
    containsDotDot "../../etc/passwd" = true ∧
    Untar [⟨"../../etc/passwd", false, 420⟩] "/tmp/work123" =
      [FSAction.openWrite "/etc/passwd" 420] ∧
    isWithin "/tmp/work123" "/etc/passwd" = false := by decide

end DeployToCF
